import Mathlib

/-!
Verification of `deftree/associate_comments.go` (descriptor-path resolution
and comment association of the truss code generator).

The Go source works over `reflect.Value`; the embedding models the reflective
values it actually distinguishes (strings, pointers, structs with
protobuf-tagged fields, slices, anything else, and the invalid zero Value that
`Elem` of a nil pointer yields).  Go computations that can return an `error`
or abort the process with a runtime panic are modelled with an explicit
result type.
-/

namespace Deftree

/-- Outcome of a Go computation: a normal value, a returned `error` (carrying
the message), or a runtime panic (which unwinds the whole call stack). -/
inductive Res (α : Type) where
  | ok : α → Res α
  | error : String → Res α
  | panic : String → Res α
deriving DecidableEq

/-- Functorial action on the `ok` value, mirroring the Go pattern
`rv, err := f(...); if err != nil { return nil, err }; return g(rv), nil`
(and propagation of panics). -/
def Res.map {α β : Type} (f : α → β) : Res α → Res β
  | .ok a => .ok (f a)
  | .error m => .error m
  | .panic m => .panic m

/-- Model of a `reflect.Value` as used by `associate_comments.go`.

* `str s` — a value of kind `reflect.String`.
* `ptr v` — a pointer (`reflect.Ptr`); `ptr none` is a nil pointer, whose
  `Elem()` is the invalid zero `reflect.Value`.
* `strct name fields` — a struct.  `name` models
  `*v.FieldByName("Name").Interface().(*string)`: `some s` when the struct has
  a non-nil `Name *string` field holding `s`, `none` when the field is missing
  or nil (dereferencing then panics).  `fields` lists the struct's fields in
  declaration order; the `Int` component is the protobuf field number parsed
  from the field's struct tag by `getProtobufField` (`-1` when the field
  carries no protobuf tag, matching the `pfield_n := -1` initialisation).
* `slice elems` — a value of kind `reflect.Slice`.
* `other` — any further kind (int, map, ...).
* `invalid` — the zero `reflect.Value` (kind `reflect.Invalid`), produced by
  `Elem()` on a nil pointer. -/
inductive RVal where
  | str : String → RVal
  | ptr : Option RVal → RVal
  | strct : Option String → List (Int × RVal) → RVal
  | slice : List RVal → RVal
  | other : RVal
  | invalid : RVal

/-- Model of `getProtobufField`: scan the struct's fields in order and return
the first whose parsed protobuf tag number is `!= -1` and equal to
`proto_field`; otherwise the Go function returns an error.  On a non-struct
value the Go code panics inside reflection (`NumField` requires a struct;
`Type()` on the invalid zero Value already panics).  The second return value
of the Go function (the protobuf label, used only for logging and discarded
by the caller) is omitted. -/
def getProtobufField (proto_field : Int) (proto_msg : RVal) : Res RVal :=
  match proto_msg with
  | .strct _ fields =>
    match fields.find? (fun fl => fl.1 != -1 && fl.1 == proto_field) with
    | some fl => .ok fl.2
    | none => .error ("Couldn't find a proto field with the given index")
  | .invalid => .panic ("reflect: call of reflect.Value.Type on zero Value")
  | _ => .panic ("reflect: NumField of non-struct type")

/-- Model of `getCollectionIndex`: panics (does not return an error) when
`index >= len(node)`, and `reflect.Value.Index` itself panics on a negative
index; otherwise returns the `index`-th element. -/
def getCollectionIndex (node : List RVal) (index : Int) : Res RVal :=
  if (node.length : Int) ≤ index then
    .panic ("The node is of the given length, cannot access index")
  else if index < 0 then
    .panic ("reflect: array index out of range")
  else
    match node.get? index.toNat with
    | some v => .ok v
    | none => .panic ("unreachable: index was bounds-checked")

/-- The `switch node.Kind()` at the top of `buildNamePath`: computes the pair
`(st_name, node)` left in scope after the switch, or the error/panic the
switch produces.

* `reflect.String`: `st_name` is the string itself, `node` unchanged.
* `reflect.Ptr`: `node = node.Elem()` — note that `st_name` keeps its zero
  value `""`; the Go switch has no fallthrough, so the name of the pointed-to
  struct is NOT extracted.  `Elem()` of a nil pointer is the invalid Value.
* struct: `st_name = *node.FieldByName("Name").Interface().(*string)`, which
  panics when the `Name` field is missing or nil.
* any other kind (slice, invalid, ...): the `walkNextStruct expected struct`
  error. -/
def bnpSwitch : RVal → Res (String × RVal)
  | .str s => .ok (s, .str s)
  | .ptr none => .ok ("", .invalid)
  | .ptr (some v) => .ok ("", v)
  | .strct none _ => .panic ("runtime error: invalid memory address or nil pointer dereference")
  | .strct (some nm) fields => .ok (nm, .strct (some nm) fields)
  | .slice _ => .error ("walkNextStruct expected struct, found slice")
  | .other => .error ("walkNextStruct expected struct, found other")
  | .invalid => .error ("walkNextStruct expected struct, found invalid")

/-- The dereference applied to a slice element before recursing
(`clean_next`): unwrap one pointer layer if the element is a pointer
(`Elem()` of a nil pointer giving the invalid Value), otherwise keep it. -/
def unwrapPtr : RVal → RVal
  | .ptr none => .invalid
  | .ptr (some v) => v
  | v => v

/-- Model of `buildNamePath`: convert a SourceLocation integer path into the
list of names of the objects it traverses, walking `path` in (field number,
collection index) pairs.  Mirrors the Go control flow:

1. the kind switch (`bnpSwitch`) producing `st_name` and the possibly
   unwrapped `node`;
2. `len(path) == 0` — terminus, return `[st_name]`;
3. `getProtobufField(int(path[0]), node)`;
4. `len(path) == 1` — "Comment somehow attached to a field label" error;
5. non-slice field — recurse on `path[1:]` with the field, prepend `st_name`;
6. slice field — error if `int(path[1]) >= field.Len()`, else fetch the
   element (`getCollectionIndex`), unwrap one pointer layer, recurse on
   `path[2:]`, prepend `st_name`.

The `len(path) == 1` check of step 4 precedes the slice-kind test in the Go
source and is independent of it; here it is duplicated into both branches of
the field-kind match (with the same error value) so that the recursion is
structural on `path`. -/
def buildNamePath : List Int → RVal → Res (List String)
  | [], node =>
    match bnpSwitch node with
    | .error m => .error m
    | .panic m => .panic m
    | .ok (st_name, _) => .ok [st_name]
  | p0 :: rest, node =>
    match bnpSwitch node with
    | .error m => .error m
    | .panic m => .panic m
    | .ok (st_name, node2) =>
      match getProtobufField p0 node2 with
      | .error m => .error m
      | .panic m => .panic m
      | .ok field =>
        match field with
        | .slice elems =>
          match rest with
          | [] => .error ("Comment somehow attached to a field label, time to panic")
          | p1 :: rest2 =>
            if (elems.length : Int) ≤ p1 then
              .error ("Second item in path is longer than length of current field")
            else
              match getCollectionIndex elems p1 with
              | .error m => .error m
              | .panic m => .panic m
              | .ok next_node =>
                Res.map (fun rv => st_name :: rv) (buildNamePath rest2 (unwrapPtr next_node))
        | _ =>
          if rest.isEmpty then
            .error ("Comment somehow attached to a field label, time to panic")
          else
            Res.map (fun rv => st_name :: rv) (buildNamePath rest field)

/-! ### The comment scrubber

`scrubComments` applies, in order: two `strings.Replace` calls and three
RE2 regexp replacements.  Comment text is modelled as `List Char`.  The RE2
regexps are embedded by their (leftmost-match, greedy) semantics:

* `^/*\s*` → `""`: the anchored match removes the maximal leading run of
  slashes followed by the maximal run of whitespace (note: slashes THEN
  whitespace; asterisks are never matched — `/*` is "zero or more slashes").
* `\s*$` → `""`: without multiline mode `$` only matches at end of text, so
  the single non-empty match is the maximal trailing whitespace run.
* `\s+\n` → `"\n"`: scanning left to right, a greedy match starting at the
  first character of a whitespace run extends to the last newline of that run
  (the final `\n` of the pattern needs a whitespace character before it);
  equivalently, a whitespace character is deleted exactly when the next
  surviving character is a newline.  `lineTrailWs` implements that
  right-to-left formulation.

RE2's `\s` class is `[\t\n\f\r ]`. -/

/-- RE2 whitespace class `\s = [\t\n\f\r ]`. -/
def goIsSpace (c : Char) : Bool :=
  c == ' ' || c == '\t' || c == '\n' || c == '\x0c' || c == '\r'

/-- Model of `strings.Replace(comment, "\n/ ", "\n", -1)`: scan left to
right, replacing non-overlapping occurrences; the replacement text is not
rescanned. -/
def replaceNlSlashSpace : List Char → List Char
  | '\n' :: '/' :: ' ' :: rest => '\n' :: replaceNlSlashSpace rest
  | c :: rest => c :: replaceNlSlashSpace rest
  | [] => []

/-- Model of `strings.Replace(comment, "\n/", "\n", -1)`. -/
def replaceNlSlash : List Char → List Char
  | '\n' :: '/' :: rest => '\n' :: replaceNlSlash rest
  | c :: rest => c :: replaceNlSlash rest
  | [] => []

/-- Model of `beginning_slash.ReplaceAllString(comment, "")` with
`beginning_slash = ^/*\s*`: drop the leading run of slashes, then the leading
run of whitespace. -/
def stripLeadingSlashWs (l : List Char) : List Char :=
  (l.dropWhile (fun c => c == '/')).dropWhile goIsSpace

/-- Model of `trailing_whitespace.ReplaceAllString(comment, "")` with
`trailing_whitespace = \s*$`: remove the maximal trailing whitespace run. -/
def stripTrailingWs : List Char → List Char
  | [] => []
  | c :: cs =>
    match stripTrailingWs cs with
    | [] => if goIsSpace c then [] else [c]
    | r :: rs => c :: r :: rs

/-- One right-to-left step of the `\s+\n → "\n"` replacement: a whitespace
character whose next surviving character is a newline is deleted (it is part
of a `\s+\n` match whose replacement already contributed that newline). -/
def lineTrailStep (c : Char) (r : List Char) : List Char :=
  if goIsSpace c && r.head? == some '\n' then r else c :: r

/-- Model of `line_trail_ws.ReplaceAllString(comment, "\n")` with
`line_trail_ws = \s+\n`: each maximal whitespace run containing a newline
after its first position is collapsed up to its last newline. -/
def lineTrailWs : List Char → List Char
  | [] => []
  | c :: cs => lineTrailStep c (lineTrailWs cs)

/-- Model of `scrubComments`: the two `strings.Replace` calls followed by the
three regexp replacements, in source order. -/
def scrubComments (comment : List Char) : List Char :=
  lineTrailWs (stripTrailingWs (stripLeadingSlashWs
    (replaceNlSlash (replaceNlSlashSpace comment))))

/-! ### The association driver

`AssociateComments` walks the request's proto files, skipping files not
listed among the files to generate, and for each qualifying source location
either sets the package description (paths of length 1) or resolves the path
with `buildNamePath` and writes the scrubbed comment through the Deftree's
`SetComment`.  The external Deftree is modelled by the function it is consumed
through: `SetComment` as a function from a name path and a comment to an
optional error message (`none` = success); `SetDescription` always succeeds
and is recorded as an action.  The effect of processing each location is
recorded as a `LocAction`; a Go panic unwinds the loops, which `DriverResult`
captures by also recording the actions performed before the panic. -/

/-- One `SourceCodeInfo.Location`: the integer path, the leading comment, and
the leading detached comments (comment text as a character list). -/
structure SrcLoc where
  path : List Int
  leadingComments : List Char
  leadingDetachedComments : List (List Char)
deriving DecidableEq

/-- One entry of the request's `ProtoFile` list: its name (`GetName()`), the
reflective value `reflect.ValueOf(*file)` that `buildNamePath` is rooted at,
and the locations of its `SourceCodeInfo`. -/
structure ProtoFile where
  name : String
  value : RVal
  locations : List SrcLoc

/-- A `CodeGeneratorRequest`: the proto files and the `FileToGenerate`
list. -/
structure CodeGenRequest where
  protoFile : List ProtoFile
  fileToGenerate : List String

/-- The Deftree's `SetComment` contract: given a name path and the (scrubbed)
comment text, return `none` on success or `some msg` for an error with
message `msg`. -/
abbrev SetCommentFn := List String → List Char → Option String

/-- What `AssociateComments` does with one source location. -/
inductive LocAction where
  | skipped
  | setDescr (text : List Char)
  | resolveFailed (msg : String)
  | commentSet (namePath : List String) (text : List Char)
  | suppressedMiss (msg : String)
  | loggedWriteError (msg : String)
deriving DecidableEq

/-- Model of `len(lead) > 1 || len(location.LeadingDetachedComments) > 1`
(the byte length of the Go string is modelled as the character count). -/
def eligible (loc : SrcLoc) : Bool :=
  loc.leadingComments.length > 1 || loc.leadingDetachedComments.length > 1

/-- Whether `pat` is a prefix of `l` (helper for `containsSeq`). -/
def startsWith : List Char → List Char → Bool
  | _, [] => true
  | [], _ :: _ => false
  | c :: cs, p :: ps => c == p && startsWith cs ps

/-- Model of `strings.Contains`. -/
def containsSeq : List Char → List Char → Bool
  | [], pat => startsWith [] pat
  | c :: cs, pat => startsWith (c :: cs) pat || containsSeq cs pat

/-- Model of the per-location body of `AssociateComments`:

* locations failing the leading-comment/detached-comment test produce no
  write (`skipped`);
* a path of length exactly 1 goes to `dt.SetDescription(scrubComments(lead))`
  without consulting the resolver;
* otherwise `buildNamePath` runs: a resolver error is only logged
  (`resolveFailed`), a resolver panic propagates; on success
  `dt.SetComment(name_path, scrubComments(lead))` runs, a failure whose
  message contains `"cannot find node"` is silently suppressed
  (`suppressedMiss`), any other failure is logged (`loggedWriteError`). -/
def processLocation (tree : SetCommentFn) (fileVal : RVal) (loc : SrcLoc) :
    Res LocAction :=
  if eligible loc then
    if loc.path.length = 1 then
      .ok (.setDescr (scrubComments loc.leadingComments))
    else
      match buildNamePath loc.path fileVal with
      | .panic m => .panic m
      | .error m => .ok (.resolveFailed m)
      | .ok np =>
        match tree np (scrubComments loc.leadingComments) with
        | none => .ok (.commentSet np (scrubComments loc.leadingComments))
        | some err =>
          if containsSeq err.toList ("cannot find node".toList) then
            .ok (.suppressedMiss err)
          else
            .ok (.loggedWriteError err)
  else
    .ok .skipped

/-- Result of the association pass: either every location was processed, or a
panic unwound the pass, recording the actions completed before it. -/
inductive DriverResult where
  | completed (acts : List LocAction)
  | panicked (acts : List LocAction) (msg : String)
deriving DecidableEq

/-- The inner `for _, location := range info.GetLocation()` loop.  A panic
from a location aborts the loop (and, transitively, the whole pass). -/
def runLocs (tree : SetCommentFn) (fileVal : RVal) : List SrcLoc → DriverResult
  | [] => .completed []
  | loc :: rest =>
    match processLocation tree fileVal loc with
    | .ok a =>
      match runLocs tree fileVal rest with
      | .completed acts => .completed (a :: acts)
      | .panicked acts m => .panicked (a :: acts) m
    | .error m => .panicked [] m
    | .panic m => .panicked [] m

/-- The file filter of `AssociateComments`: a file is processed iff its name
occurs in `FileToGenerate`. -/
def genFiles (req : CodeGenRequest) : List ProtoFile :=
  req.protoFile.filter (fun f => req.fileToGenerate.contains f.name)

/-- The outer `for _, file := range req.GetProtoFile()` loop over the files
that survive the filter. -/
def runFiles (tree : SetCommentFn) : List ProtoFile → DriverResult
  | [] => .completed []
  | f :: rest =>
    match runLocs tree f.value f.locations with
    | .panicked acts m => .panicked acts m
    | .completed acts =>
      match runFiles tree rest with
      | .completed acts2 => .completed (acts ++ acts2)
      | .panicked acts2 m => .panicked (acts ++ acts2) m

/-- Model of `AssociateComments`. -/
def associateComments (tree : SetCommentFn) (req : CodeGenRequest) :
    DriverResult :=
  runFiles tree (genFiles req)

/-- The comment text an action writes into the Deftree, if any. -/
def writtenText : LocAction → Option (List Char)
  | .setDescr t => some t
  | .commentSet _ t => some t
  | _ => none

/-- Replace the name at the head of a successful name path (helper for
stating how the pointer case of `buildNamePath` relates to the struct
case). -/
def replaceHead (s : String) : Res (List String) → Res (List String)
  | .ok (_ :: t) => .ok (s :: t)
  | r => r

/-- Fuel-indexed variant of `buildNamePath`: identical structure, but each
recursive invocation consumes one unit of fuel, and exhausted fuel yields
`none`.  Used to state the termination/recursion-depth bound of C9. -/
def buildNamePathF : Nat → List Int → RVal → Option (Res (List String))
  | 0, _, _ => none
  | Nat.succ _, [], node =>
    match bnpSwitch node with
    | .error m => some (.error m)
    | .panic m => some (.panic m)
    | .ok (st_name, _) => some (.ok [st_name])
  | Nat.succ fuel, p0 :: rest, node =>
    match bnpSwitch node with
    | .error m => some (.error m)
    | .panic m => some (.panic m)
    | .ok (st_name, node2) =>
      match getProtobufField p0 node2 with
      | .error m => some (.error m)
      | .panic m => some (.panic m)
      | .ok field =>
        match field with
        | .slice elems =>
          match rest with
          | [] => some (.error ("Comment somehow attached to a field label, time to panic"))
          | p1 :: rest2 =>
            if (elems.length : Int) ≤ p1 then
              some (.error ("Second item in path is longer than length of current field"))
            else
              match getCollectionIndex elems p1 with
              | .error m => some (.error m)
              | .panic m => some (.panic m)
              | .ok next_node =>
                (buildNamePathF fuel rest2 (unwrapPtr next_node)).map
                  (Res.map (fun rv => st_name :: rv))
        | _ =>
          if rest.isEmpty then
            some (.error ("Comment somehow attached to a field label, time to panic"))
          else
            (buildNamePathF fuel rest field).map
              (Res.map (fun rv => st_name :: rv))

/-- Whether a Go computation panicked. -/
def Res.isPanic {α : Type} : Res α → Bool
  | .panic _ => true
  | _ => false

/-- Whether some whitespace character is immediately followed by a newline
(the condition under which `line_trail_ws = \s+\n` matches). -/
def hasWsNl : List Char → Bool
  | a :: b :: rest => (goIsSpace a && b == '\n') || hasWsNl (b :: rest)
  | _ => false

/-! ### Claim theorems -/

example :
    buildNamePath [4, 0]
      (.strct (some "file.proto")
        [(4, .slice [.ptr (some (.strct (some "Widget") []))])]) =
      .ok ["file.proto", "Widget"] := by decide

example :
    buildNamePath [4, 0, 2, 0]
      (.strct (some "file.proto")
        [(4, .slice [.ptr (some (.strct (some "Widget")
          [(2, .slice [.ptr (some (.strct (some "id") []))])]))])]) =
      .ok ["file.proto", "Widget", "id"] := by decide

example : scrubComments ("// Foo is bar.\n".toList) = "Foo is bar.".toList := by decide

example :
    scrubComments ("/* multi\n * line\n */".toList) =
      "* multi\n * line\n */".toList := by decide

example : scrubComments ("/ /".toList) = "/".toList := by decide

example : scrubComments ("a\n//".toList) = "a\n/".toList := by decide

example : lineTrailWs ("x  \n\ny".toList) = "x\ny".toList := by decide

example : lineTrailWs ("a\n b".toList) = "a\n b".toList := by decide

example : containsSeq ("deftree: cannot find node Widget".toList) ("cannot find node".toList) = true := by decide

example : containsSeq ("some other failure".toList) ("cannot find node".toList) = false := by decide

/-- Helper: `getProtobufField` finds a field whose tag equals the requested
number when that field heads the list (tag `-1` marks untagged fields and
never matches). -/
theorem find?_tag_head (t : Int) (v : RVal) (l : List (Int × RVal))
    (h : t ≠ -1) :
    ((t, v) :: l).find? (fun fl => fl.1 != -1 && fl.1 == t) = some (t, v) := by
  apply List.find?_cons_of_pos
  simp [h]

/-- C1: for every file declaration value whose message field has field number
`m` and contains one message named "Widget", resolving `[m, 0]` yields
`[<file-name>, "Widget"]`; and if "Widget" additionally has a fields
collection with field number `f` containing one field named "id", resolving
`[m, 0, f, 0]` yields `[<file-name>, "Widget", "id"]`.  (Field numbers are
taken `≠ -1`, the sentinel `getProtobufField` uses for untagged fields.) -/
theorem c1_resolver_two_and_three_level (fname : String) (m f : Int)
    (hm : m ≠ -1) (hf : f ≠ -1) :
    buildNamePath [m, 0]
      (.strct (some fname)
        [(m, .slice [.ptr (some (.strct (some "Widget") []))])]) =
      .ok [fname, "Widget"] ∧
    buildNamePath [m, 0, f, 0]
      (.strct (some fname)
        [(m, .slice [.ptr (some (.strct (some "Widget")
          [(f, .slice [.ptr (some (.strct (some "id") []))])]))])]) =
      .ok [fname, "Widget", "id"] := by
  constructor
  · simp [buildNamePath, bnpSwitch, getProtobufField, find?_tag_head m _ _ hm,
      getCollectionIndex, unwrapPtr, Res.map]
  · simp [buildNamePath, bnpSwitch, getProtobufField, find?_tag_head m _ _ hm,
      find?_tag_head f _ _ hf, getCollectionIndex, unwrapPtr, Res.map]

/-- Witness for `c1_resolver_two_and_three_level` at `fname = "a.proto"`,
`m = 4`, `f = 2`. -/
theorem c1_resolver_witness :
    buildNamePath [4, 0]
      (.strct (some "a.proto")
        [(4, .slice [.ptr (some (.strct (some "Widget") []))])]) =
      .ok ["a.proto", "Widget"] ∧
    buildNamePath [4, 0, 2, 0]
      (.strct (some "a.proto")
        [(4, .slice [.ptr (some (.strct (some "Widget")
          [(2, .slice [.ptr (some (.strct (some "id") []))])]))])]) =
      .ok ["a.proto", "Widget", "id"] :=
  c1_resolver_two_and_three_level "a.proto" 4 2 (by decide) (by decide)

/-- C3 counterexample: the claim says the scrubber removes any leading run of
slash, asterisk and whitespace characters, and that
`scrub("/* multi\n * line\n */")` has no leading `/` or `*`.  In fact
`beginning_slash = ^/*\s*` matches slashes (then whitespace) only, never
asterisks: the result of scrubbing that very string starts with `*`. -/
theorem c3_scrub_leading_cex :
    (scrubComments ("/* multi\n * line\n */".toList)).head? = some '*' := by
  decide

/-- C3 (amended): the scrubber removes the leading run of slash characters
followed by a run of whitespace (asterisks are not removed);
`scrub("// Foo is bar.\n") = "Foo is bar."`, and
`scrub("/* multi\n * line\n */") = "* multi\n * line\n */"`, which has no
trailing whitespace but retains its leading asterisk. -/
theorem c3_scrub_leading_amended :
    scrubComments ("// Foo is bar.\n".toList) = "Foo is bar.".toList ∧
    scrubComments ("/* multi\n * line\n */".toList) =
      "* multi\n * line\n */".toList := by
  constructor
  · decide
  · decide

/-- C4: for every path whose collection index is at least the length of the
(slice) collection it indexes, the resolver returns the malformed-path
`error` — the `Res.error` constructor, not the `Res.panic` one, so the Go
function returns an error rather than panicking. -/
theorem c4_oob_index_is_error (nm : String) (flds : List (Int × RVal))
    (p0 p1 : Int) (rest : List Int) (elems : List RVal)
    (hfind : getProtobufField p0 (.strct (some nm) flds) = .ok (.slice elems))
    (hidx : (elems.length : Int) ≤ p1) :
    buildNamePath (p0 :: p1 :: rest) (.strct (some nm) flds) =
      .error ("Second item in path is longer than length of current field") := by
  simp [buildNamePath, bnpSwitch, hfind, hidx]

/-- Witness for `c4_oob_index_is_error`: resolving `[4, 5]` against a
one-element message collection fails with the malformed-path error. -/
theorem c4_oob_index_witness :
    buildNamePath [4, 5]
      (.strct (some "a.proto")
        [(4, .slice [.ptr (some (.strct (some "Widget") []))])]) =
      .error ("Second item in path is longer than length of current field") :=
  c4_oob_index_is_error "a.proto"
    [(4, .slice [.ptr (some (.strct (some "Widget") []))])] 4 5 []
    [.ptr (some (.strct (some "Widget") []))] (by rfl) (by decide)

/-- C8: for every structured node and every path whose first element matches
no tagged member of the node (each field is untagged or has a different tag
number), the resolver returns the `getProtobufField` error rather than a name
path. -/
theorem c8_no_field_number_is_error (nm : String) (flds : List (Int × RVal))
    (p0 : Int) (rest : List Int)
    (hnone : ∀ fl ∈ flds, fl.1 = -1 ∨ fl.1 ≠ p0) :
    buildNamePath (p0 :: rest) (.strct (some nm) flds) =
      .error ("Couldn't find a proto field with the given index") := by
  have hfind : flds.find? (fun fl => fl.1 != -1 && fl.1 == p0) = none := by
    rw [List.find?_eq_none]
    intro fl hfl
    rcases hnone fl hfl with h | h <;> simp [h]
  simp [buildNamePath, bnpSwitch, getProtobufField, hfind]

/-- Witness for `c8_no_field_number_is_error`: field number 7 matches neither
the untagged field (tag `-1`) nor the field tagged 4. -/
theorem c8_no_field_number_witness :
    buildNamePath [7, 0]
      (.strct (some "a.proto")
        [(-1, .other), (4, .slice [.ptr (some (.strct (some "Widget") []))])]) =
      .error ("Couldn't find a proto field with the given index") :=
  c8_no_field_number_is_error "a.proto" _ 7 [0] (by decide)

/-- C5: every eligible source location with a path of length exactly 1 is
routed to `SetDescription` with the scrubbed leading comment.  The resolver
is never consulted: the resulting action is the same for every tree function
and every file value, and in particular does not depend on what
`buildNamePath` would return. -/
theorem c5_package_level_setdescription (tree : SetCommentFn) (fv : RVal)
    (loc : SrcLoc) (he : eligible loc = true) (hp : loc.path.length = 1) :
    processLocation tree fv loc =
      .ok (.setDescr (scrubComments loc.leadingComments)) := by
  simp [processLocation, he, hp]

/-- Witness for `c5_package_level_setdescription`: a location with
`path = [2]` (the package field number) and comment `"// General package\n"`. -/
theorem c5_package_level_witness :
    processLocation (fun _ _ => some "deftree: cannot find node") .other
      ⟨[2], "// General package\n".toList, []⟩ =
      .ok (.setDescr ("General package".toList)) := by
  have h := c5_package_level_setdescription
    (fun _ _ => some "deftree: cannot find node") .other
    ⟨[2], "// General package\n".toList, []⟩ (by decide) (by decide)
  rw [h]
  decide

/-- C10: only the leading comment's text is ever written to the tree.  Every
text a location's action writes (via `SetDescription` or `SetComment`) is the
scrubbed leading comment; and a location eligible only through its detached
comments (leading comment of length at most one) still has that possibly
empty leading comment written, never the detached text. -/
theorem c10_only_leading_comment_written (tree : SetCommentFn) (fv : RVal)
    (loc : SrcLoc) (a : LocAction)
    (h : processLocation tree fv loc = .ok a) :
    (∀ t, writtenText a = some t → t = scrubComments loc.leadingComments) ∧
    (loc.leadingComments.length ≤ 1 → 1 < loc.leadingDetachedComments.length →
      loc.path.length = 1 → a = .setDescr (scrubComments loc.leadingComments)) := by
  simp only [processLocation] at h
  constructor
  · intro t ht
    split at h
    · split at h
      · cases h
        simp [writtenText] at ht
        exact ht.symm
      · split at h
        · cases h
        · cases h
          simp [writtenText] at ht
        · split at h
          · cases h
            simp [writtenText] at ht
            exact ht.symm
          · split at h
            · cases h
              simp [writtenText] at ht
            · cases h
              simp [writtenText] at ht
    · cases h
      simp [writtenText] at ht
  · intro h1 h2 h3
    have he : eligible loc = true := by
      simp [eligible]
      right
      exact h2
    rw [if_pos he, if_pos h3] at h
    cases h
    rfl

/-- Witness for `c10_only_leading_comment_written`: a location with an empty
leading comment, two detached comments, and the package-level path `[2]` is
processed, and what it writes is the (empty) scrubbed leading comment, not
the detached text. -/
theorem c10_only_leading_comment_witness :
    (∀ t, writtenText (LocAction.setDescr []) = some t →
      t = scrubComments ([] : List Char)) ∧
    (([] : List Char).length ≤ 1 →
      1 < (["a".toList, "b".toList] : List (List Char)).length →
      ([2] : List Int).length = 1 →
      LocAction.setDescr [] = .setDescr (scrubComments ([] : List Char))) :=
  c10_only_leading_comment_written (fun _ _ => none) .other
    ⟨[2], [], ["a".toList, "b".toList]⟩ (.setDescr []) (by decide)

/-- Helper: prepending `s₁` to a resolver result is the same as prepending
`s₂` and then overwriting the head with `s₁`. -/
theorem replaceHead_map (s₁ s₂ : String) (r : Res (List String)) :
    Res.map (fun rv => s₁ :: rv) r =
      replaceHead s₁ (Res.map (fun rv => s₂ :: rv) r) := by
  cases r <;> rfl

/-- C6 counterexample: the claim says that on a pointer wrapper the resolver
unwraps one level and then extracts the wrapped record's `Name` member as the
current name.  In fact the `reflect.Ptr` case of the kind switch only
reassigns `node = node.Elem()` and leaves `st_name` at its zero value `""`:
resolving the empty path against a pointer to a struct named "Widget" yields
`[""]`, not `["Widget"]`. -/
theorem c6_ptr_name_cex :
    buildNamePath [] (.ptr (some (.strct (some "Widget") []))) = .ok [""] ∧
    (Res.ok [""] : Res (List String)) ≠ .ok ["Widget"] := by
  constructor
  · rfl
  · decide

/-- C6 (amended): when the current node is a pointer wrapper around a
structured record, the resolver unwraps one level and proceeds exactly as it
would on the record itself, except that the current level's name in the
returned name path is the empty string — the wrapped record's `Name` member
is not consulted for this level. -/
theorem c6_ptr_empty_name_amended (nm : String) (flds : List (Int × RVal))
    (path : List Int) :
    buildNamePath path (.ptr (some (.strct (some nm) flds))) =
      replaceHead "" (buildNamePath path (.strct (some nm) flds)) := by
  cases path with
  | nil => rfl
  | cons p0 rest =>
    simp only [buildNamePath, bnpSwitch]
    split <;> try rfl
    split
    · split <;> try rfl
      split <;> try rfl
      split <;> try rfl
      exact replaceHead_map "" nm _
    · split <;> try rfl
      exact replaceHead_map "" nm _

/-- Helper for `c9_resolver_terminates`: mapping a name-prepend over an
already-determined fuel run. -/
theorem buildNamePathF_map_some {fuel : Nat} (f : List String → List String)
    (path : List Int) (nd : RVal)
    (hr : buildNamePathF fuel path nd = some (buildNamePath path nd)) :
    Option.map (Res.map f) (buildNamePathF fuel path nd) =
      some (Res.map f (buildNamePath path nd)) := by
  rw [hr]
  rfl

/-- C9: the resolver terminates on every input, with recursion depth bounded
by the path length: each recursive call strictly shortens the path (by one in
the non-collection-field case, by two in the collection-field case), so
running the fuel-indexed variant with any fuel exceeding the path length
never exhausts the fuel and computes exactly `buildNamePath`. -/
theorem c9_resolver_terminates (fuel : Nat) (path : List Int) (node : RVal)
    (h : path.length < fuel) :
    buildNamePathF fuel path node = some (buildNamePath path node) := by
  induction fuel generalizing path node with
  | zero => omega
  | succ fuel ih =>
    cases path with
    | nil =>
      simp only [buildNamePathF, buildNamePath]
      cases bnpSwitch node with
      | error m => rfl
      | panic m => rfl
      | ok p => rfl
    | cons p0 rest =>
      simp only [buildNamePathF, buildNamePath]
      split <;> try rfl
      split <;> try rfl
      split
      · split <;> try rfl
        split <;> try rfl
        split <;> try rfl
        exact buildNamePathF_map_some _ _ _
          (ih _ _ (by simp only [List.length_cons] at h; omega))
      · split <;> try rfl
        exact buildNamePathF_map_some _ _ _
          (ih _ _ (by simp only [List.length_cons] at h; omega))

/-- Helper: the per-location body either yields an action or panics — it
never itself produces a Go `error` value (resolver errors are consumed and
turned into the logged-and-skipped action). -/
theorem processLocation_cases (tree : SetCommentFn) (fv : RVal) (loc : SrcLoc) :
    (∃ a, processLocation tree fv loc = .ok a) ∨
      (∃ m, processLocation tree fv loc = .panic m) := by
  simp only [processLocation]
  split
  · split
    · exact Or.inl ⟨_, rfl⟩
    · split
      · exact Or.inr ⟨_, rfl⟩
      · exact Or.inl ⟨_, rfl⟩
      · split
        · exact Or.inl ⟨_, rfl⟩
        · split
          · exact Or.inl ⟨_, rfl⟩
          · exact Or.inl ⟨_, rfl⟩
  · exact Or.inl ⟨_, rfl⟩

/-- Helper: when no location of the list panics, the location loop completes
with exactly one action per location. -/
theorem runLocs_completed (tree : SetCommentFn) (fv : RVal)
    (locs : List SrcLoc)
    (h : ∀ loc ∈ locs, (processLocation tree fv loc).isPanic = false) :
    ∃ acts, runLocs tree fv locs = .completed acts ∧
      acts.length = locs.length := by
  induction locs with
  | nil => exact ⟨[], rfl, rfl⟩
  | cons loc rest ih =>
    obtain ⟨acts, hr, hl⟩ := ih (fun l hm => h l (List.mem_cons_of_mem _ hm))
    rcases processLocation_cases tree fv loc with ⟨a, ha⟩ | ⟨m, hm⟩
    · refine ⟨a :: acts, ?_, by simp [hl]⟩
      simp only [runLocs, ha, hr]
    · have := h loc (List.mem_cons_self _ _)
      rw [hm] at this
      simp [Res.isPanic] at this

/-- Helper: when no location of any file panics, the file loop completes
with one action per location of every file. -/
theorem runFiles_completed (tree : SetCommentFn) (files : List ProtoFile)
    (h : ∀ f ∈ files, ∀ loc ∈ f.locations,
      (processLocation tree f.value loc).isPanic = false) :
    ∃ acts, runFiles tree files = .completed acts ∧
      acts.length = (files.map (fun f => f.locations.length)).sum := by
  induction files with
  | nil => exact ⟨[], rfl, rfl⟩
  | cons f rest ih =>
    obtain ⟨acts2, hr2, hl2⟩ := ih (fun g hg => h g (List.mem_cons_of_mem _ hg))
    obtain ⟨acts1, hr1, hl1⟩ :=
      runLocs_completed tree f.value f.locations (h f (List.mem_cons_self _ _))
    refine ⟨acts1 ++ acts2, ?_, by simp [hl1, hl2]⟩
    simp only [runFiles, hr1, hr2]

/-- C7 counterexample: the claim says the association pass never aborts
because of a single bad source location.  But a location whose path descends
into a scalar field makes `getProtobufField` panic inside reflection
(`NumField` of a non-struct), and the panic unwinds the whole pass: with a
first location of path `[1, 0]` (field 1 being the file's `Name *string`),
the pass ends in a panic having produced no action, and the second —
perfectly good — package-comment location is never processed. -/
theorem c7_no_abort_cex :
    associateComments (fun _ _ => none)
      ⟨[⟨"f.proto",
         .strct (some "f.proto") [(1, .ptr (some (.str "f.proto")))],
         [⟨[1, 0], "xx".toList, []⟩, ⟨[2], "// pkg\n".toList, []⟩]⟩],
       ["f.proto"]⟩ =
      .panicked [] ("reflect: NumField of non-struct type") := by
  decide

/-- C7 (amended): the association pass never aborts because of a location
whose resolver run merely fails with an error, or whose tree write fails —
resolver failures are logged and skipped, "cannot find node" write failures
are silently suppressed, other write failures are only logged, and every
location of every generated file is processed, yielding exactly one action
per location.  However, a location whose path makes
the resolver panic aborts the entire pass, so the no-panic assumption is
required. -/
theorem c7_no_abort_amended (tree : SetCommentFn) (req : CodeGenRequest)
    (h : ∀ f ∈ genFiles req, ∀ loc ∈ f.locations,
      (processLocation tree f.value loc).isPanic = false) :
    ∃ acts, associateComments tree req = .completed acts ∧
      acts.length = ((genFiles req).map (fun f => f.locations.length)).sum :=
  runFiles_completed tree (genFiles req) h

/-- Witness for `c7_no_abort_amended`: a request with four locations — one
ineligible, one resolver error (no field number 9), one write suppressed as
"cannot find node", one write failure merely logged — completes with four
actions. -/
theorem c7_no_abort_witness :
    ∃ acts,
      associateComments
        (fun np _ => if np = ["g.proto", "Widget"]
          then some "deftree: cannot find node Widget"
          else some "tree exploded")
        ⟨[⟨"g.proto",
           .strct (some "g.proto")
             [(4, .slice [.ptr (some (.strct (some "Widget") [])),
                          .ptr (some (.strct (some "Gone") []))])],
           [⟨[4], "x".toList, []⟩,
            ⟨[9, 0], "// lost\n".toList, []⟩,
            ⟨[4, 0], "// W\n".toList, []⟩,
            ⟨[4, 1], "// G\n".toList, []⟩]⟩],
         ["g.proto"]⟩ = .completed acts ∧
      acts.length =
        ((genFiles
          ⟨[⟨"g.proto",
             .strct (some "g.proto")
               [(4, .slice [.ptr (some (.strct (some "Widget") [])),
                            .ptr (some (.strct (some "Gone") []))])],
             [⟨[4], "x".toList, []⟩,
              ⟨[9, 0], "// lost\n".toList, []⟩,
              ⟨[4, 0], "// W\n".toList, []⟩,
              ⟨[4, 1], "// G\n".toList, []⟩]⟩],
           ["g.proto"]⟩).map
          (fun f => f.locations.length)).sum :=
  c7_no_abort_amended _ _ (by decide)

/-- Witness for `c9_resolver_terminates`: fuel 3 suffices for a length-2
path. -/
theorem c9_resolver_terminates_witness :
    buildNamePathF 3 [4, 0]
      (.strct (some "a.proto")
        [(4, .slice [.ptr (some (.strct (some "Widget") []))])]) =
      some (buildNamePath [4, 0]
        (.strct (some "a.proto")
          [(4, .slice [.ptr (some (.strct (some "Widget") []))])])) :=
  c9_resolver_terminates 3 [4, 0] _ (by decide)

/-! ### Scrubber idempotence (C2) -/

/-- Helper: `replaceNlSlashSpace` only keeps input characters or emits
newlines. -/
theorem mem_replaceNlSlashSpace (l : List Char) (c : Char)
    (hc : c ∈ replaceNlSlashSpace l) : c ∈ l ∨ c = '\n' := by
  induction l using replaceNlSlashSpace.induct with
  | case1 rest ih =>
    rw [replaceNlSlashSpace] at hc
    rcases List.mem_cons.mp hc with rfl | hc'
    · exact Or.inr rfl
    · rcases ih hc' with hm | he
      · exact Or.inl (by simp [hm])
      · exact Or.inr he
  | case2 a rest hne ih =>
    rw [replaceNlSlashSpace] at hc
    · rcases List.mem_cons.mp hc with rfl | hc'
      · exact Or.inl (List.mem_cons_self _ _)
      · rcases ih hc' with hm | he
        · exact Or.inl (List.mem_cons_of_mem _ hm)
        · exact Or.inr he
    · exact hne
  | case3 =>
    rw [replaceNlSlashSpace] at hc
    cases hc

/-- Helper: `replaceNlSlash` only keeps input characters or emits
newlines. -/
theorem mem_replaceNlSlash (l : List Char) (c : Char)
    (hc : c ∈ replaceNlSlash l) : c ∈ l ∨ c = '\n' := by
  induction l using replaceNlSlash.induct with
  | case1 rest ih =>
    rw [replaceNlSlash] at hc
    rcases List.mem_cons.mp hc with rfl | hc'
    · exact Or.inr rfl
    · rcases ih hc' with hm | he
      · exact Or.inl (by simp [hm])
      · exact Or.inr he
  | case2 a rest hne ih =>
    rw [replaceNlSlash] at hc
    · rcases List.mem_cons.mp hc with rfl | hc'
      · exact Or.inl (List.mem_cons_self _ _)
      · rcases ih hc' with hm | he
        · exact Or.inl (List.mem_cons_of_mem _ hm)
        · exact Or.inr he
    · exact hne
  | case3 =>
    rw [replaceNlSlash] at hc
    cases hc

/-- Helper: without any slash in the input, the `"\n/ "` replacement is the
identity. -/
theorem replaceNlSlashSpace_eq_self (l : List Char) (h : '/' ∉ l) :
    replaceNlSlashSpace l = l := by
  induction l using replaceNlSlashSpace.induct with
  | case1 rest ih => exact absurd (by simp) h
  | case2 a rest hne ih =>
    rw [replaceNlSlashSpace]
    · rw [ih (fun hm => h (List.mem_cons_of_mem _ hm))]
    · exact hne
  | case3 => rfl

/-- Helper: without any slash in the input, the `"\n/"` replacement is the
identity. -/
theorem replaceNlSlash_eq_self (l : List Char) (h : '/' ∉ l) :
    replaceNlSlash l = l := by
  induction l using replaceNlSlash.induct with
  | case1 rest ih => exact absurd (by simp) h
  | case2 a rest hne ih =>
    rw [replaceNlSlash]
    · rw [ih (fun hm => h (List.mem_cons_of_mem _ hm))]
    · exact hne
  | case3 => rfl

/-- Helper: trailing-whitespace removal keeps only input characters. -/
theorem mem_stripTrailingWs (l : List Char) (c : Char)
    (hc : c ∈ stripTrailingWs l) : c ∈ l := by
  induction l with
  | nil => simp [stripTrailingWs] at hc
  | cons a as ih =>
    rw [stripTrailingWs] at hc
    cases hT : stripTrailingWs as with
    | nil =>
      rw [hT] at hc
      by_cases hs : goIsSpace a
      · simp [hs] at hc
      · simp [hs] at hc
        simp [hc]
    | cons r rs =>
      rw [hT] at hc
      rcases List.mem_cons.mp hc with rfl | hc'
      · exact List.mem_cons_self _ _
      · refine List.mem_cons_of_mem _ (ih ?_)
        rw [hT]
        exact hc'

/-- Helper: trailing-whitespace removal preserves the head when it keeps
anything. -/
theorem head?_stripTrailingWs (l : List Char) (c : Char)
    (hc : (stripTrailingWs l).head? = some c) : l.head? = some c := by
  cases l with
  | nil => simp [stripTrailingWs] at hc
  | cons a as =>
    rw [stripTrailingWs] at hc
    cases hT : stripTrailingWs as with
    | nil =>
      rw [hT] at hc
      by_cases hs : goIsSpace a
      · simp [hs] at hc
      · simp [hs] at hc
        simp [hc]
    | cons r rs =>
      rw [hT] at hc
      simp at hc
      simp [hc]

/-- Helper: what trailing-whitespace removal keeps never ends in
whitespace. -/
theorem getLast?_stripTrailingWs (l : List Char) (c : Char)
    (hc : (stripTrailingWs l).getLast? = some c) : goIsSpace c = false := by
  induction l with
  | nil => simp [stripTrailingWs] at hc
  | cons a as ih =>
    rw [stripTrailingWs] at hc
    cases hT : stripTrailingWs as with
    | nil =>
      rw [hT] at hc
      by_cases hs : goIsSpace a
      · simp [hs] at hc
      · simp [hs] at hc
        rw [← hc]
        simpa using hs
    | cons r rs =>
      rw [hT] at hc
      rw [List.getLast?_cons_cons] at hc
      refine ih ?_
      rw [hT]
      exact hc

/-- Helper: a list not ending in whitespace is a fixed point of
trailing-whitespace removal. -/
theorem stripTrailingWs_eq_self (l : List Char)
    (h : ∀ c, l.getLast? = some c → goIsSpace c = false) :
    stripTrailingWs l = l := by
  induction l with
  | nil => rfl
  | cons a as ih =>
    cases as with
    | nil =>
      have := h a rfl
      simp [stripTrailingWs, this]
    | cons b bs =>
      have hbs : stripTrailingWs (b :: bs) = b :: bs := by
        apply ih
        intro c hc
        exact h c (by rw [List.getLast?_cons_cons]; exact hc)
      rw [stripTrailingWs, hbs]

/-- Helper: the `\s+\n` collapse keeps only input characters. -/
theorem mem_lineTrailWs (l : List Char) (c : Char)
    (hc : c ∈ lineTrailWs l) : c ∈ l := by
  induction l with
  | nil => simp [lineTrailWs] at hc
  | cons a as ih =>
    simp only [lineTrailWs, lineTrailStep] at hc
    split at hc
    · exact List.mem_cons_of_mem _ (ih hc)
    · rcases List.mem_cons.mp hc with rfl | hc'
      · exact List.mem_cons_self _ _
      · exact List.mem_cons_of_mem _ (ih hc')

/-- Helper: the `\s+\n` collapse never returns the empty list on a nonempty
input. -/
theorem lineTrailWs_ne_nil (a : Char) (as : List Char) :
    lineTrailWs (a :: as) ≠ [] := by
  simp only [lineTrailWs, lineTrailStep]
  split
  · rename_i hcond
    intro he
    rw [he] at hcond
    simp at hcond
  · simp

/-- Helper: the `\s+\n` collapse keeps a non-whitespace head. -/
theorem head?_lineTrailWs (a : Char) (as : List Char)
    (ha : goIsSpace a = false) :
    (lineTrailWs (a :: as)).head? = some a := by
  simp [lineTrailWs, lineTrailStep, ha]

/-- Helper: the `\s+\n` collapse preserves the last element. -/
theorem getLast?_lineTrailWs (l : List Char) :
    (lineTrailWs l).getLast? = l.getLast? := by
  induction l with
  | nil => rfl
  | cons a as ih =>
    cases as with
    | nil => simp [lineTrailWs, lineTrailStep]
    | cons b bs =>
      rw [List.getLast?_cons_cons, lineTrailWs]
      cases hC : lineTrailWs (b :: bs) with
      | nil => exact absurd hC (lineTrailWs_ne_nil _ _)
      | cons r rs =>
        rw [hC] at ih
        simp only [lineTrailStep]
        split
        · exact ih
        · rw [List.getLast?_cons_cons]
          exact ih

/-- Helper: unfolding `hasWsNl` one step via `head?`. -/
theorem hasWsNl_cons (a : Char) (l : List Char) :
    hasWsNl (a :: l) = ((goIsSpace a && l.head? == some '\n') || hasWsNl l) := by
  cases l with
  | nil => simp [hasWsNl]
  | cons b bs => simp [hasWsNl]

/-- Helper: the output of the `\s+\n` collapse has no whitespace character
immediately before a newline. -/
theorem hasWsNl_lineTrailWs (l : List Char) :
    hasWsNl (lineTrailWs l) = false := by
  induction l with
  | nil => rfl
  | cons a as ih =>
    simp only [lineTrailWs, lineTrailStep]
    split
    · exact ih
    · rename_i hcond
      rw [hasWsNl_cons, ih, Bool.or_false]
      simpa using hcond

/-- Helper: a list with no whitespace-before-newline is a fixed point of the
`\s+\n` collapse. -/
theorem lineTrailWs_eq_self (l : List Char) (h : hasWsNl l = false) :
    lineTrailWs l = l := by
  induction l with
  | nil => rfl
  | cons a as ih =>
    rw [hasWsNl_cons, Bool.or_eq_false_iff] at h
    simp only [lineTrailWs, lineTrailStep, ih h.2, h.1]
    simp

/-- Helper: character membership survives `dropWhile`. -/
theorem mem_dropWhile (p : Char → Bool) (l : List Char) (c : Char)
    (hc : c ∈ l.dropWhile p) : c ∈ l :=
  (List.dropWhile_sublist p).subset hc

/-- Helper: the head surviving `dropWhile` fails the predicate. -/
theorem head?_dropWhile (p : Char → Bool) (l : List Char) (c : Char)
    (hc : (l.dropWhile p).head? = some c) : p c = false := by
  induction l with
  | nil => simp at hc
  | cons a as ih =>
    rw [List.dropWhile_cons] at hc
    split at hc
    · exact ih hc
    · rename_i hp
      simp at hc
      rw [← hc]
      simpa using hp

/-- Helper: a list whose head fails the predicate is a fixed point of
`dropWhile`. -/
theorem dropWhile_eq_self (p : Char → Bool) (l : List Char)
    (h : ∀ c, l.head? = some c → p c = false) : l.dropWhile p = l := by
  cases l with
  | nil => rfl
  | cons a as => simp [List.dropWhile_cons, h a rfl]

/-- Helper: scrubbing keeps only input characters and newlines. -/
theorem mem_scrubComments (l : List Char) (c : Char)
    (hc : c ∈ scrubComments l) : c ∈ l ∨ c = '\n' := by
  simp only [scrubComments, stripLeadingSlashWs] at hc
  have h1 := mem_lineTrailWs _ _ hc
  have h2 := mem_stripTrailingWs _ _ h1
  have h3 := mem_dropWhile _ _ _ h2
  have h4 := mem_dropWhile _ _ _ h3
  rcases mem_replaceNlSlash _ _ h4 with h5 | h5
  · exact mem_replaceNlSlashSpace _ _ h5
  · exact Or.inr h5

/-- Helper: scrubbed output never starts with whitespace. -/
theorem head?_scrubComments (l : List Char) (c : Char)
    (hc : (scrubComments l).head? = some c) : goIsSpace c = false := by
  simp only [scrubComments] at hc
  cases hv : stripTrailingWs (stripLeadingSlashWs
      (replaceNlSlash (replaceNlSlashSpace l))) with
  | nil =>
    rw [hv] at hc
    simp [lineTrailWs] at hc
  | cons a as =>
    rw [hv] at hc
    have ha : goIsSpace a = false := by
      have h1 : (stripTrailingWs (stripLeadingSlashWs
          (replaceNlSlash (replaceNlSlashSpace l)))).head? = some a := by
        rw [hv]
        rfl
      have h2 := head?_stripTrailingWs _ _ h1
      simp only [stripLeadingSlashWs] at h2
      exact head?_dropWhile _ _ _ h2
    rw [head?_lineTrailWs a as ha] at hc
    cases hc
    exact ha

/-- Helper: scrubbed output never ends with whitespace. -/
theorem getLast?_scrubComments (l : List Char) (c : Char)
    (hc : (scrubComments l).getLast? = some c) : goIsSpace c = false := by
  simp only [scrubComments] at hc
  rw [getLast?_lineTrailWs] at hc
  exact getLast?_stripTrailingWs _ _ hc

/-- C2 counterexample: the claim says `scrub(scrub(s)) = scrub(s)` for every
input string.  It fails on `"/ /"`: the leading-strip regexp `^/*\s*` removes
the first slash and the space, re-exposing the second slash, which a second
application then removes: `scrub("/ /") = "/"` but `scrub("/") = ""`. -/
theorem c2_scrub_idempotent_cex :
    scrubComments (scrubComments ("/ /".toList)) ≠
      scrubComments ("/ /".toList) := by
  decide

/-- C2 (amended): the scrubber is idempotent on every comment containing no
slash character.  (Slashes can defeat idempotence in two ways: the leading
strip removes one leading-slash run and one whitespace run only, so
`"/ /"` scrubs to `"/"` and then to `""`; and the `"\n/"` replacement can
re-create a `"\n/"` occurrence, so `"a\n//"` scrubs to `"a\n/"` and then to
`"a"`.) -/
theorem c2_scrub_idempotent_amended (l : List Char) (h : '/' ∉ l) :
    scrubComments (scrubComments l) = scrubComments l := by
  have hno : '/' ∉ scrubComments l := by
    intro hm
    rcases mem_scrubComments _ _ hm with h6 | h6
    · exact h h6
    · exact absurd h6 (by decide)
  have h1 : replaceNlSlashSpace (scrubComments l) = scrubComments l :=
    replaceNlSlashSpace_eq_self _ hno
  have h2 : replaceNlSlash (scrubComments l) = scrubComments l :=
    replaceNlSlash_eq_self _ hno
  have h3 : (scrubComments l).dropWhile (fun c => c == '/') = scrubComments l := by
    apply dropWhile_eq_self
    intro c hc
    have hcm : c ∈ scrubComments l := List.mem_of_mem_head? (Option.mem_def.mpr hc)
    have hne : c ≠ '/' := fun he => hno (he ▸ hcm)
    simp [hne]
  have h4 : (scrubComments l).dropWhile goIsSpace = scrubComments l :=
    dropWhile_eq_self _ _ (head?_scrubComments l)
  have h5 : stripTrailingWs (scrubComments l) = scrubComments l :=
    stripTrailingWs_eq_self _ (getLast?_scrubComments l)
  have h6 : lineTrailWs (scrubComments l) = scrubComments l := by
    apply lineTrailWs_eq_self
    show hasWsNl (scrubComments l) = false
    simp only [scrubComments]
    exact hasWsNl_lineTrailWs _
  calc scrubComments (scrubComments l)
      = lineTrailWs (stripTrailingWs (stripLeadingSlashWs
          (replaceNlSlash (replaceNlSlashSpace (scrubComments l))))) := rfl
    _ = scrubComments l := by
        rw [h1, h2]
        simp only [stripLeadingSlashWs]
        rw [h3, h4, h5, h6]

/-- Witness for `c2_scrub_idempotent_amended` at the slash-free comment
`"ab \n cd\n"`. -/
theorem c2_scrub_idempotent_witness :
    scrubComments (scrubComments ("ab \n cd\n".toList)) =
      scrubComments ("ab \n cd\n".toList) :=
  c2_scrub_idempotent_amended _ (by decide)

end Deftree
